import Mathlib

/-!
Verification of the symbolic-AST core of the Triton repository
(src/libtriton/ast/astGarbageCollector.cpp and
src/libtriton/ast/z3/tritonToZ3Ast.New.cpp / tritonToZ3Ast.cpp).

The embedding mirrors the C++ sources:
the AST node model is a tagged variant with an ordered child sequence
(triton::ast::AbstractNode); the Z3 side is modelled as a free term
algebra, one constructor per adapter operation the translator invokes
(Z3_mk_bvadd, Z3_mk_numeral, ...); the garbage collector is a record of
the allocated-node set, the variable-name map and the backup flag.
C++ pointer identity of nodes is modelled by structural equality, which
agrees with the source on the inputs considered here (a shared pointer
is a shared subterm).
-/

namespace TritonSpec

/-- Node kinds, mirroring the kind_e enumeration of the source
(the kinds dispatched by TritonToZ3Ast::convert plus an INVALID kind
that falls into the default branch of the switch). -/
inductive kind_e where
  | BVADD_NODE
  | BVAND_NODE
  | BVASHR_NODE
  | BVLSHR_NODE
  | BVMUL_NODE
  | BVNAND_NODE
  | BVNOR_NODE
  | BVOR_NODE
  | BVROL_NODE
  | BVROR_NODE
  | BVSDIV_NODE
  | BVSGE_NODE
  | BVSGT_NODE
  | BVSHL_NODE
  | BVSLE_NODE
  | BVSLT_NODE
  | BVSMOD_NODE
  | BVSREM_NODE
  | BVSUB_NODE
  | BVUDIV_NODE
  | BVUGE_NODE
  | BVUGT_NODE
  | BVULE_NODE
  | BVULT_NODE
  | BVUREM_NODE
  | BVXNOR_NODE
  | BVXOR_NODE
  | BVNEG_NODE
  | BVNOT_NODE
  | BV_NODE
  | CONCAT_NODE
  | DECIMAL_NODE
  | DISTINCT_NODE
  | EQUAL_NODE
  | EXTRACT_NODE
  | ITE_NODE
  | LAND_NODE
  | LET_NODE
  | LNOT_NODE
  | LOR_NODE
  | REFERENCE_NODE
  | STRING_NODE
  | SX_NODE
  | VARIABLE_NODE
  | ZX_NODE
  | INVALID_NODE
deriving DecidableEq

mutual

/-- AST node (triton::ast::AbstractNode): a kind, an ordered child
sequence, and the per-kind payloads: value is the DecimalNode payload,
str is the StringNode value or the VariableNode name, nid is the
ReferenceNode expression id or the VariableNode variable id. -/
inductive Node where
  | mk (kind : kind_e) (children : NodeList) (value : Nat) (str : String) (nid : Nat)
deriving DecidableEq

/-- Ordered child sequence of a node (std::vector of AbstractNode
pointers in the source). -/
inductive NodeList where
  | nil
  | cons (head : Node) (tail : NodeList)
deriving DecidableEq

end

instance : BEq Node := instBEqOfDecidableEq

def NodeList.toList : NodeList → List Node
  | .nil => []
  | .cons a l => a :: l.toList

/-- AbstractNode::getKind. -/
def Node.getKind : Node → kind_e
  | .mk k _ _ _ _ => k

/-- AbstractNode::getChildren, as a Lean list. -/
def Node.getChildren : Node → List Node
  | .mk _ c _ _ _ => c.toList

/-- DecimalNode::getValue (arbitrary-precision integer payload). -/
def Node.getValue : Node → Nat
  | .mk _ _ v _ _ => v

/-- StringNode::getValue and VariableNode::getVarName (string payload). -/
def Node.getStr : Node → String
  | .mk _ _ _ s _ => s

/-- ReferenceNode expression id / VariableNode variable id. -/
def Node.getId : Node → Nat
  | .mk _ _ _ _ i => i

/-- Z3 solver expressions, modelled as the free algebra over the
adapter operations invoked by TritonToZ3Ast::convert
(tritonToZ3Ast.New.cpp): numerals, bit-vector constants and the
operator applications Z3_mk_bvadd ... Z3_mk_zero_ext. -/
inductive Z3Expr where
  | intNumeral (v : Nat)
  | bvNumeral (v : Nat) (size : Nat)
  | bvConst (nm : String) (size : Nat)
  | binApp (k : kind_e) (a b : Z3Expr)
  | unApp (k : kind_e) (a : Z3Expr)
  | rotateLeft (amount : Nat) (a : Z3Expr)
  | rotateRight (amount : Nat) (a : Z3Expr)
  | concatExpr (a b : Z3Expr)
  | distinctExpr (a b : Z3Expr)
  | extractExpr (hi lo : Nat) (a : Z3Expr)
  | iteExpr (c t f : Z3Expr)
  | andExpr (a b : Z3Expr)
  | orExpr (a b : Z3Expr)
  | notExpr (a : Z3Expr)
  | signExt (n : Nat) (a : Z3Expr)
  | zeroExt (n : Nat) (a : Z3Expr)
deriving DecidableEq

/-- Sort check used by TritonToZ3Ast::isBool: the boolean-sorted
expressions of the modelled adapter are equalities, distinct,
bit-vector comparisons, boolean connectives, and ite over boolean
branches. -/
def Z3Expr.isBool : Z3Expr → Bool
  | .binApp k _ _ =>
    match k with
    | .EQUAL_NODE | .BVUGE_NODE | .BVUGT_NODE | .BVULE_NODE | .BVULT_NODE
    | .BVSGE_NODE | .BVSGT_NODE | .BVSLE_NODE | .BVSLT_NODE => true
    | _ => false
  | .distinctExpr _ _ => true
  | .andExpr _ _ => true
  | .orExpr _ _ => true
  | .notExpr _ => true
  | .iteExpr _ t _ => t.isBool
  | _ => false

/-- TritonToZ3Ast::getUintValue (the Z3_ast overload used by the New
translator): Z3_get_numeral_uint64 yields the value of a numeral and
leaves the result 0 for any non-numeral expression. -/
def getUintValue : Z3Expr → Nat
  | .intNumeral v => v
  | .bvNumeral v _ => v
  | _ => 0

/-- TritonToZ3Ast::getStringValue: Z3_get_numeral_string renders a
numeral as a decimal string, which the BV case immediately re-parses
with Z3_mk_numeral; the round trip is modelled as the numeral value. -/
def getStringValue : Z3Expr → Nat
  | .intNumeral v => v
  | .bvNumeral v _ => v
  | _ => 0

/-- Decidable equality on Except results, used to evaluate the
translator on concrete inputs. -/
instance exceptDecEq {ε α : Type} [DecidableEq ε] [DecidableEq α] : DecidableEq (Except ε α) := by
  intro a b
  cases a <;> cases b
  case error.error e f =>
    exact if h : e = f then .isTrue (by rw [h]) else .isFalse (by intro hc; cases hc; exact h rfl)
  case error.ok e x => exact .isFalse (by intro hc; cases hc)
  case ok.error x e => exact .isFalse (by intro hc; cases hc)
  case ok.ok x y =>
    exact if h : x = y then .isTrue (by rw [h]) else .isFalse (by intro hc; cases hc; exact h rfl)

/-- Symbolic variable record returned by
SymbolicEngine::getSymbolicVariableFromId: a name and a bit size. -/
structure SymVar where
  svName : String
  svSize : Nat
deriving DecidableEq

/-- External collaborators of the translator: the expression store
reached through ReferenceNode::getSymbolicExpression().getAst(), the
symbolic engine resolving variable ids, the concrete evaluator used by
VariableNode::evaluate, and the isEval flag of the TritonToZ3Ast
constructor. -/
structure Ctx where
  store : Nat → Node
  symVars : Nat → Option SymVar
  varValue : Nat → Nat
  isEval : Bool

/-- Failure modes of the translator: the exceptions thrown by
TritonToZ3Ast::convert plus AtFail for std::unordered_map::at on a
missing key, BadArity for an out-of-range children access, and
OutOfFuel for the fuel bound of the embedded iteration (the C++ loop
has no such bound; enough fuel is always provided). -/
inductive TErr where
  | NullNode
  | OutOfFuel
  | AtFail
  | BadArity
  | UnboundSymbol
  | TypeMismatch
  | UnknownKind
  | VariableNotFound
deriving DecidableEq

/-- Mutable state of one TritonToZ3Ast::convert run: the z3expressions
memo map (kept in insertion order; std::unordered_map::emplace never
overwrites an existing key), the symbols map written by LET nodes, and
a log of the nodes whose switch case invoked solver-adapter
operations (used to count how often a node is lowered). -/
structure TState where
  memo : List (Node × Z3Expr)
  symbols : List (String × Node)
  log : List Node
deriving DecidableEq

instance : Inhabited TState := ⟨⟨[], [], []⟩⟩

/-- Lookup in an association list, modelling map::find. -/
def assocFind {α β : Type} [DecidableEq α] : List (α × β) → α → Option β
  | [], _ => none
  | (a, b) :: rest, k => if a = k then some b else assocFind rest k

/-- std::unordered_map::emplace on the memo map: a no-op when the key
is already present, otherwise the pair is appended (the list records
insertion order; its head is the first entry of the modelled iteration
order of the unordered container). -/
def emplace (m : List (Node × Z3Expr)) (k : Node) (v : Z3Expr) : List (Node × Z3Expr) :=
  match assocFind m k with
  | some _ => m
  | none => m ++ [(k, v)]

/-- Overwriting update of the symbols map (std::map operator[]
assignment in the LET case). -/
def assocSet (l : List (String × Node)) (k : String) (v : Node) : List (String × Node) :=
  (k, v) :: l.filter (fun p => p.1 != k)

/-- z3expressions.at(child): throws when the child has no memo entry. -/
def memoAt (st : TState) (c : Node) : Except TErr Z3Expr :=
  match assocFind st.memo c with
  | some e => .ok e
  | none => .error .AtFail

/-- Left fold of Z3_mk_concat over the remaining children
(CONCAT case of the switch). -/
def concatFold (st : TState) (acc : Z3Expr) : List Node → Except TErr Z3Expr
  | [] => .ok acc
  | c :: cs => do
    let e ← memoAt st c
    concatFold st (.concatExpr acc e) cs

/-- Left fold of Z3_mk_and over the remaining children, with the
boolean sort check of the LAND case. -/
def andFold (st : TState) (acc : Z3Expr) : List Node → Except TErr Z3Expr
  | [] => .ok acc
  | c :: cs => do
    let e ← memoAt st c
    if e.isBool then andFold st (.andExpr acc e) cs else .error .TypeMismatch

/-- Left fold of Z3_mk_or over the remaining children, with the
boolean sort check of the LOR case. -/
def orFold (st : TState) (acc : Z3Expr) : List Node → Except TErr Z3Expr
  | [] => .ok acc
  | c :: cs => do
    let e ← memoAt st c
    if e.isBool then orFold st (.orExpr acc e) cs else .error .TypeMismatch

/-- One execution of the dispatch switch of TritonToZ3Ast::convert
(tritonToZ3Ast.New.cpp, lines 265-502): computes the solver
expression for the node from the memo entries of its children.
An out-of-range children access (undefined behaviour in the C++) is
modelled as the BadArity error. -/
def lowerExprOf (ctx : Ctx) (st : TState) (n : Node) : Except TErr Z3Expr :=
  let k := n.getKind
  let children := n.getChildren
  match k with
  | .BVADD_NODE | .BVAND_NODE | .BVASHR_NODE | .BVLSHR_NODE | .BVMUL_NODE
  | .BVNAND_NODE | .BVNOR_NODE | .BVOR_NODE | .BVSDIV_NODE | .BVSGE_NODE
  | .BVSGT_NODE | .BVSHL_NODE | .BVSLE_NODE | .BVSLT_NODE | .BVSMOD_NODE
  | .BVSREM_NODE | .BVSUB_NODE | .BVUDIV_NODE | .BVUGE_NODE | .BVUGT_NODE
  | .BVULE_NODE | .BVULT_NODE | .BVUREM_NODE | .BVXNOR_NODE | .BVXOR_NODE
  | .EQUAL_NODE =>
    match children with
    | c0 :: c1 :: _ => do
      let e0 ← memoAt st c0
      let e1 ← memoAt st c1
      .ok (.binApp k e0 e1)
    | _ => .error .BadArity
  | .BVNEG_NODE | .BVNOT_NODE =>
    match children with
    | c0 :: _ => do
      let e0 ← memoAt st c0
      .ok (.unApp k e0)
    | _ => .error .BadArity
  | .BVROL_NODE =>
    match children with
    | c0 :: c1 :: _ => do
      let e1 ← memoAt st c1
      .ok (.rotateLeft c0.getValue e1)
    | _ => .error .BadArity
  | .BVROR_NODE =>
    match children with
    | c0 :: c1 :: _ => do
      let e1 ← memoAt st c1
      .ok (.rotateRight c0.getValue e1)
    | _ => .error .BadArity
  | .BV_NODE =>
    match children with
    | c0 :: c1 :: _ => do
      let v ← memoAt st c0
      let s ← memoAt st c1
      .ok (.bvNumeral (getStringValue v) (getUintValue s))
    | _ => .error .BadArity
  | .CONCAT_NODE =>
    match children with
    | c0 :: rest => do
      let e0 ← memoAt st c0
      concatFold st e0 rest
    | _ => .error .BadArity
  | .DECIMAL_NODE => .ok (.intNumeral n.getValue)
  | .DISTINCT_NODE =>
    match children with
    | c0 :: c1 :: _ => do
      let e0 ← memoAt st c0
      let e1 ← memoAt st c1
      .ok (.distinctExpr e0 e1)
    | _ => .error .BadArity
  | .EXTRACT_NODE =>
    match children with
    | c0 :: c1 :: c2 :: _ => do
      let hi ← memoAt st c0
      let lo ← memoAt st c1
      let v ← memoAt st c2
      .ok (.extractExpr (getUintValue hi) (getUintValue lo) v)
    | _ => .error .BadArity
  | .ITE_NODE =>
    match children with
    | c0 :: c1 :: c2 :: _ => do
      let e0 ← memoAt st c0
      let e1 ← memoAt st c1
      let e2 ← memoAt st c2
      .ok (.iteExpr e0 e1 e2)
    | _ => .error .BadArity
  | .LAND_NODE =>
    match children with
    | c0 :: rest => do
      let e0 ← memoAt st c0
      if e0.isBool then andFold st e0 rest else .error .TypeMismatch
    | _ => .error .BadArity
  | .LET_NODE =>
    match children with
    | _ :: _ :: c2 :: _ => memoAt st c2
    | _ => .error .BadArity
  | .LNOT_NODE =>
    match children with
    | c0 :: _ => do
      let e0 ← memoAt st c0
      if e0.isBool then Except.ok (.notExpr e0) else .error .TypeMismatch
    | _ => .error .BadArity
  | .LOR_NODE =>
    match children with
    | c0 :: rest => do
      let e0 ← memoAt st c0
      if e0.isBool then orFold st e0 rest else .error .TypeMismatch
    | _ => .error .BadArity
  | .REFERENCE_NODE => memoAt st (ctx.store n.getId)
  | .STRING_NODE =>
    match assocFind st.symbols n.getStr with
    | none => .error .UnboundSymbol
    | some b => memoAt st b
  | .SX_NODE =>
    match children with
    | c0 :: c1 :: _ => do
      let ext ← memoAt st c0
      let v ← memoAt st c1
      .ok (.signExt (getUintValue ext) v)
    | _ => .error .BadArity
  | .VARIABLE_NODE =>
    match ctx.symVars n.getId with
    | none => .error .VariableNotFound
    | some sv =>
      .ok (if ctx.isEval then .bvNumeral (ctx.varValue n.getId) sv.svSize
           else .bvConst sv.svName sv.svSize)
  | .ZX_NODE =>
    match children with
    | c0 :: c1 :: _ => do
      let ext ← memoAt st c0
      let v ← memoAt st c1
      .ok (.zeroExt (getUintValue ext) v)
    | _ => .error .BadArity
  | .INVALID_NODE => .error .UnknownKind

/-- Kinds whose switch case invokes solver-adapter operations; the
LET, STRING and REFERENCE cases only read and copy memo entries. -/
def adapterKind : kind_e → Bool
  | .LET_NODE | .STRING_NODE | .REFERENCE_NODE => false
  | _ => true

/-- Processing of one node of the visit sequence: run the switch,
emplace the result into the memo (no overwrite), register the LET
binding in the symbols map, and log the adapter invocation. -/
def lowerOne (ctx : Ctx) (st : TState) (n : Node) : Except TErr TState := do
  let e ← lowerExprOf ctx st n
  .ok { memo := emplace st.memo n e
        symbols :=
          if n.getKind = .LET_NODE then
            match n.getChildren with
            | c0 :: c1 :: _ => assocSet st.symbols c0.getStr c1
            | _ => st.symbols
          else st.symbols
        log := st.log ++ (if adapterKind n.getKind then [n] else []) }

/-- Phase 2 of TritonToZ3Ast::convert: iterate the switch over the
visit sequence produced by fillWorkStack. -/
def lowerSeq (ctx : Ctx) : TState → List Node → Except TErr TState
  | st, [] => .ok st
  | st, n :: rest => do
    let st2 ← lowerOne ctx st n
    lowerSeq ctx st2 rest

/-- Iteration of fillWorkStack (tritonToZ3Ast.New.cpp, lines 194-222):
an explicit stack of (node, next-child-index) frames produces the
post-order visit sequence; a REFERENCE frame with index 0 pushes the
referenced root from the expression store. The fuel argument bounds
the number of loop iterations; the accumulator collects the result
vector in reverse. -/
def fillWorkStackAux (store : Nat → Node) : Nat → List (Node × Nat) → List Node → Option (List Node)
  | _, [], acc => some acc.reverse
  | 0, _ :: _, _ => none
  | fuel + 1, (n, i) :: rest, acc =>
    if h : i < n.getChildren.length then
      fillWorkStackAux store fuel ((n.getChildren.get ⟨i, h⟩, 0) :: (n, i + 1) :: rest) acc
    else if n.getKind = .REFERENCE_NODE ∧ i = 0 then
      fillWorkStackAux store fuel ((store n.getId, 0) :: (n, 1) :: rest) acc
    else
      fillWorkStackAux store fuel rest (n :: acc)

/-- Phase 1 of the New translator: fillWorkStack seeded with
(root, 0). -/
def fillWorkStack (store : Nat → Node) (fuel : Nat) (root : Node) : Option (List Node) :=
  fillWorkStackAux store fuel [(root, 0)] []

/-- TritonToZ3Ast::convert up to its return expression: null check,
phase 1 traversal, phase 2 lowering; yields the final z3expressions
state. -/
def convertState (ctx : Ctx) (fuel : Nat) (root : Option Node) : Except TErr TState :=
  match root with
  | none => .error .NullNode
  | some r =>
    match fillWorkStack ctx.store fuel r with
    | none => .error .OutOfFuel
    | some seq => lowerSeq ctx ⟨[], [], []⟩ seq

/-- TritonToZ3Ast::convert. The C++ returns
z3expressions.begin()->second; the iteration order of
std::unordered_map is implementation defined and is modelled as
insertion order, so the returned expression is the memo entry of the
first node lowered, whichever node that is. -/
def convert (ctx : Ctx) (fuel : Nat) (root : Option Node) : Except TErr Z3Expr :=
  match convertState ctx fuel root with
  | .error e => .error e
  | .ok st =>
    match st.memo with
    | [] => .error .AtFail
    | (_, e) :: _ => .ok e

/-- DECIMAL node holding 1 (the BV value child of the literal used in
the concrete scenarios). -/
def decOne : Node := .mk .DECIMAL_NODE .nil 1 "" 0

/-- DECIMAL node holding 8 (the BV size child). -/
def decEight : Node := .mk .DECIMAL_NODE .nil 8 "" 0

/-- BV(1, 8) literal node: children are the value and size DECIMAL
nodes, as built by the AST builder API. -/
def chainLeaf : Node := .mk .BV_NODE (.cons decOne (.cons decEight .nil)) 0 "" 0

/-- Context with an empty expression store and no symbolic variables
(sufficient for inputs without REFERENCE or VARIABLE nodes). -/
def ctxEmpty : Ctx := ⟨fun _ => .mk .INVALID_NODE .nil 0 "" 0, fun _ => none, fun _ => 0, false⟩

/-- Root of the C1 scenario: BVNOT(BV(1, 8)). -/
def root1 : Node := .mk .BVNOT_NODE (.cons chainLeaf .nil) 0 "" 0

/-- STRING("x") leaf. -/
def strX : Node := .mk .STRING_NODE .nil 0 "x" 0

/-- LET("x", BV(1, 8), STRING("x")): the idempotent-LET scenario of
the specification, with BV(1, 8) as the body. -/
def letNode : Node := .mk .LET_NODE (.cons strX (.cons chainLeaf (.cons strX .nil))) 0 "" 0

/-- REFERENCE node with expression id 1. -/
def refNode : Node := .mk .REFERENCE_NODE .nil 0 "" 1

/-- BVADD over two occurrences of the same REFERENCE, so the
referenced root is reachable through several REFERENCE paths and
appears twice in the visit sequence. -/
def rootC2 : Node := .mk .BVADD_NODE (.cons refNode (.cons refNode .nil)) 0 "" 0

/-- Context whose expression store resolves every id to the BV(1, 8)
node. -/
def ctxRef : Ctx := ⟨fun _ => chainLeaf, fun _ => none, fun _ => 0, false⟩

/-- Right-linear BVADD chain: chain n has n BVADD nodes, each with the
BV(1, 8) literal on the left and the rest of the chain on the right
(the depth-independence scenario of the specification). -/
def chain : Nat → Node
  | 0 => chainLeaf
  | n + 1 => .mk .BVADD_NODE (.cons chainLeaf (.cons (chain n) .nil)) 0 "" 0

/-- Number of loop iterations fillWorkStack needs for chain n: the
loop processes each (node, index) frame once per index value, which is
8 iterations per BVADD level over the 5 of the leaf. -/
def chainFuel : Nat → Nat
  | 0 => 5
  | n + 1 => chainFuel n + 8

/-- Post-order visit sequence of chain n as produced by
fillWorkStack. -/
def postChain : Nat → List Node
  | 0 => [decOne, decEight, chainLeaf]
  | n + 1 => [decOne, decEight, chainLeaf] ++ postChain n ++ [chain (n + 1)]

/-- Solver expression of chain n. -/
def chainExpr : Nat → Z3Expr
  | 0 => .bvNumeral 1 8
  | n + 1 => .binApp .BVADD_NODE (.bvNumeral 1 8) (chainExpr n)

/-- Memo contents after lowering the three nodes of the BV(1, 8)
leaf, in insertion order. -/
def baseMemo : List (Node × Z3Expr) :=
  [(decOne, .intNumeral 1), (decEight, .intNumeral 8), (chainLeaf, .bvNumeral 1 8)]

/-- Memo entries appended for the BVADD levels 1..n of the chain, in
insertion order. -/
def chainEntries : Nat → List (Node × Z3Expr)
  | 0 => []
  | n + 1 => chainEntries n ++ [(chain (n + 1), chainExpr (n + 1))]

/-- Error thrown by AstGarbageCollector::recordVariableAstNode when
the variable name is already registered. -/
inductive GcErr where
  | Duplicate
deriving DecidableEq

/-- State of an AstGarbageCollector (astGarbageCollector.cpp): the set
of allocated nodes, the variable-name map, and the backup flag.
std::set of node pointers is modelled as a Finset of nodes, std::map
from names to nodes as an association list. -/
structure AstGarbageCollector where
  allocatedNodes : Finset Node
  variableNodes : List (String × Node)
  backupFlag : Bool
deriving DecidableEq

/-- AstGarbageCollector::recordVariableAstNode: emplace into the
variable map; an already-registered name makes the call throw and
leaves the map untouched (std::map::emplace never overwrites). -/
def recordVariableAstNode (gc : AstGarbageCollector) (nm : String) (nd : Node) :
    Except GcErr AstGarbageCollector :=
  match assocFind gc.variableNodes nm with
  | some _ => .error .Duplicate
  | none => .ok { gc with variableNodes := (nm, nd) :: gc.variableNodes }

/-- AstGarbageCollector::copy (also operator= and the restore
operation of the specification): every node tracked here and not
tracked by other is deleted, both containers are replaced by copies of
the other arena's containers, and the backup flag is set to true.
The function returns the new state together with the set of deleted
nodes. -/
def AstGarbageCollector.copy (a other : AstGarbageCollector) :
    AstGarbageCollector × Finset Node :=
  ({ allocatedNodes := other.allocatedNodes
     variableNodes := other.variableNodes
     backupFlag := true },
   a.allocatedNodes.filter (fun n => n ∉ other.allocatedNodes))

/-- AstGarbageCollector::freeAllAstNodes: deletes every tracked node
and clears both containers; returns the new state and the deleted
nodes. -/
def freeAllAstNodes (gc : AstGarbageCollector) : AstGarbageCollector × Finset Node :=
  ({ gc with allocatedNodes := ∅, variableNodes := [] }, gc.allocatedNodes)

/-- Destructor of AstGarbageCollector: invokes freeAllAstNodes only
when the backup flag is false; the result is the set of nodes the
destructor deletes. -/
def destructorFreed (gc : AstGarbageCollector) : Finset Node :=
  if gc.backupFlag = false then (freeAllAstNodes gc).2 else ∅

/-- Loop body of AstGarbageCollector::freeAstNodes: each node of the
argument set is erased from the allocated set, its variable-map entry
is erased when it is a VARIABLE node, and the node is deleted
(collected in the destroyed accumulator). -/
def freeAstNodesLoop : AstGarbageCollector → List Node → List Node → AstGarbageCollector × List Node
  | gc, destroyed, [] => (gc, destroyed)
  | gc, destroyed, nd :: rest =>
    freeAstNodesLoop
      { gc with
        allocatedNodes := gc.allocatedNodes.erase nd
        variableNodes :=
          if nd.getKind = .VARIABLE_NODE then
            gc.variableNodes.filter (fun p => p.1 != nd.getStr)
          else gc.variableNodes }
      (destroyed ++ [nd]) rest

/-- AstGarbageCollector::freeAstNodes: runs the loop over the
caller-supplied set and then clears that set (nodes.clear() mutates
the argument, which is passed by reference). The caller's std::set is
modelled as the list of its elements. The result is the new arena
state, the post-call value of the argument set, and the list of
destroyed nodes. -/
def freeAstNodes (gc : AstGarbageCollector) (nodes : List Node) :
    AstGarbageCollector × List Node × List Node :=
  let r := freeAstNodesLoop gc [] nodes
  (r.1, ([] : List Node), r.2)

mutual

/-- Recursion of AstGarbageCollector::extractUniqueAstNodes on a
non-null root: insert the root, then recurse over the ordered
children. The children list of a node is never followed through a
REFERENCE resolution: REFERENCE nodes have no children of their own
and the expression store is not consulted. -/
def extractUniqueRec (uniq : Finset Node) : Node → Finset Node
  | .mk k c v s i => extractChildren (insert (Node.mk k c v s i) uniq) c

/-- Iteration of extractUniqueAstNodes over a child sequence,
threading the accumulated set. -/
def extractChildren (uniq : Finset Node) : NodeList → Finset Node
  | .nil => uniq
  | .cons c cs => extractChildren (extractUniqueRec uniq c) cs

end

/-- AstGarbageCollector::extractUniqueAstNodes: a null root returns at
once and leaves the set untouched; otherwise the root and all nodes
reachable through getChildren are inserted. -/
def extractUniqueAstNodes (uniq : Finset Node) (root : Option Node) : Finset Node :=
  match root with
  | none => uniq
  | some r => extractUniqueRec uniq r

/-- Reachability by repeatedly following getChildren (no REFERENCE
indirection: a REFERENCE node has an empty child list and its
resolution through the expression store is not an edge here). -/
inductive Reaches : Node → Node → Prop where
  | here (n : Node) : Reaches n n
  | via (n c m : Node) : c ∈ n.getChildren → Reaches c m → Reaches n m

mutual

/-- Number of nodes of a tree, used as the induction measure for the
reachability proof. -/
def nodeSize : Node → Nat
  | .mk _ c _ _ _ => 1 + listSize c

/-- Total node count of a child sequence. -/
def listSize : NodeList → Nat
  | .nil => 0
  | .cons a l => nodeSize a + listSize l

end

/-- Final translator state of the shared-reference run (the rootC2
scenario), extracted from the successful conversion. -/
def stC2W : TState :=
  match convertState ctxRef 60 (some rootC2) with
  | .ok st => st
  | .error _ => ⟨[], [], []⟩

/-- Fresh arena: no allocated nodes, empty variable map, not a
backup. -/
def gcEmpty : AstGarbageCollector := ⟨∅, [], false⟩

/-- Arena state after registering the variable name x once. -/
def gcW : AstGarbageCollector :=
  match recordVariableAstNode gcEmpty "x" chainLeaf with
  | .ok g => g
  | .error _ => gcEmpty

/-- Backup arena tracking one node. -/
def gcBackup : AstGarbageCollector := ⟨{chainLeaf}, [], true⟩

/-- C1: the claim states that a successful TritonToZ3Ast::convert
returns the memoized handle of the root, M[root]. The code instead
returns z3expressions.begin()->second, the first element of the
iteration order of the unordered memo map (modelled as insertion
order), which is independent of the root. On the two-operator input
BVNOT(BV(1, 8)) the conversion succeeds, M[root] is the BVNOT
application, yet convert returns the integer numeral 1 lowered for
the first DECIMAL leaf. -/
theorem c1_convert_returns_first_memo_entry_not_root :
    convert ctxEmpty 40 (some root1) = .ok (.intNumeral 1) ∧
    (match convertState ctxEmpty 40 (some root1) with
     | .ok st => assocFind st.memo root1
     | .error _ => none) = some (.unApp .BVNOT_NODE (.bvNumeral 1 8)) ∧
    Z3Expr.intNumeral 1 ≠ Z3Expr.unApp .BVNOT_NODE (.bvNumeral 1 8) :=
  ⟨by decide, by decide, by decide⟩

/-- C4: the claim states that lowering LET("x", body, STRING("x"))
succeeds for every body and is equivalent to lowering body directly.
In the iterative translator the STRING("x") leaf is lowered before
its enclosing LET registers the binding (children precede parents in
the post-order visit sequence), so the conversion throws
UnboundSymbol; here evaluated at body = BV(1, 8). -/
theorem c4_let_idempotence_fails_unbound_symbol :
    convert ctxEmpty 40 (some letNode) = .error .UnboundSymbol := by
  decide

/-- C2 counterexample: the claim states that during one convert every
node has its solver-adapter operation invoked at most once. On
BVADD(REFERENCE(1), REFERENCE(1)), with the store resolving id 1 to
the BV(1, 8) node, that node appears twice in the visit sequence and
its switch case (which calls the adapter) runs twice: the adapter
invocation log counts it twice. -/
theorem c2_shared_reference_node_lowered_twice :
    (match convertState ctxRef 60 (some rootC2) with
     | .ok st => st.log.count chainLeaf
     | .error _ => 0) = 2 := by
  decide

/-- C5: registering the same variable name twice makes the second
recordVariableAstNode call fail with Duplicate, and the arena is
exactly as it was before the failing call: the name still maps to the
first node, and the allocated set and backup flag are untouched. -/
theorem c5_duplicate_variable_rejected :
    ∀ (gc : AstGarbageCollector) (nm : String) (n1 n2 : Node) (gc1 : AstGarbageCollector),
      recordVariableAstNode gc nm n1 = .ok gc1 →
      recordVariableAstNode gc1 nm n2 = .error .Duplicate ∧
      assocFind gc1.variableNodes nm = some n1 ∧
      gc1.allocatedNodes = gc.allocatedNodes ∧
      gc1.backupFlag = gc.backupFlag := by
  intro gc nm n1 n2 gc1 h
  unfold recordVariableAstNode at h ⊢
  cases hf : assocFind gc.variableNodes nm with
  | some nd => rw [hf] at h; cases h
  | none =>
    rw [hf] at h
    cases h
    simp [assocFind]

/-- C5 witness: the scenario concretely, with the name x first bound
to the BV(1, 8) node and then re-registered with a different node. -/
theorem c5_duplicate_variable_witness :
    recordVariableAstNode gcW "x" decOne = .error .Duplicate ∧
    assocFind gcW.variableNodes "x" = some chainLeaf ∧
    gcW.allocatedNodes = gcEmpty.allocatedNodes ∧
    gcW.backupFlag = gcEmpty.backupFlag :=
  c5_duplicate_variable_rejected gcEmpty "x" chainLeaf decOne gcW (by decide)

/-- C7: after copy (the restore operation), the destroyed nodes are
exactly those tracked here and not tracked by the other arena, the
live set and variable map equal the other arena's, and the backup
flag is true regardless of its previous value. -/
theorem c7_restore_destroys_excess_and_copies :
    ∀ a b : AstGarbageCollector,
      (AstGarbageCollector.copy a b).2 = a.allocatedNodes \ b.allocatedNodes ∧
      (∀ n : Node, n ∈ (AstGarbageCollector.copy a b).2 ↔
        n ∈ a.allocatedNodes ∧ n ∉ b.allocatedNodes) ∧
      (AstGarbageCollector.copy a b).1.allocatedNodes = b.allocatedNodes ∧
      (AstGarbageCollector.copy a b).1.variableNodes = b.variableNodes ∧
      (AstGarbageCollector.copy a b).1.backupFlag = true := by
  intro a b
  refine ⟨?_, ?_, rfl, rfl, rfl⟩
  · simp [AstGarbageCollector.copy, Finset.sdiff_eq_filter]
  · intro n
    simp [AstGarbageCollector.copy, Finset.mem_filter]

/-- C8: a backup arena frees nothing on destruction; the destructor
invokes freeAllAstNodes only when the backup flag is false. -/
theorem c8_backup_destructor_frees_nothing :
    ∀ gc : AstGarbageCollector, gc.backupFlag = true → destructorFreed gc = ∅ := by
  intro gc h
  simp [destructorFreed, h]

/-- C8 witness: destroying a concrete backup arena holding one node
frees nothing. -/
theorem c8_backup_destructor_witness :
    gcBackup.backupFlag = true ∧ destructorFreed gcBackup = ∅ :=
  ⟨rfl, c8_backup_destructor_frees_nothing gcBackup rfl⟩

/-- C9: extractUniqueAstNodes with a null root returns at once and
leaves the output set exactly as it was. -/
theorem c9_null_root_is_noop :
    ∀ S : Finset Node, extractUniqueAstNodes S none = S :=
  fun _ => rfl

/-- Destroyed-node accumulator of the freeAstNodes loop: the final
accumulator is the initial one followed by every iterated node. -/
theorem freeAstNodesLoop_destroyed :
    ∀ (l : List Node) (gc : AstGarbageCollector) (d : List Node),
      (freeAstNodesLoop gc d l).2 = d ++ l := by
  intro l
  induction l with
  | nil => intro gc d; simp [freeAstNodesLoop]
  | cons n rest ih =>
    intro gc d
    rw [show freeAstNodesLoop gc d (n :: rest) =
      freeAstNodesLoop
        { gc with
          allocatedNodes := gc.allocatedNodes.erase n
          variableNodes :=
            if n.getKind = .VARIABLE_NODE then
              gc.variableNodes.filter (fun p => p.1 != n.getStr)
            else gc.variableNodes }
        (d ++ [n]) rest from rfl]
    rw [ih]
    simp

/-- Allocated set after the freeAstNodes loop: every iterated node is
erased. -/
theorem freeAstNodesLoop_alloc :
    ∀ (l : List Node) (gc : AstGarbageCollector) (d : List Node),
      (freeAstNodesLoop gc d l).1.allocatedNodes = gc.allocatedNodes \ l.toFinset := by
  intro l
  induction l with
  | nil => intro gc d; simp [freeAstNodesLoop]
  | cons n rest ih =>
    intro gc d
    rw [show freeAstNodesLoop gc d (n :: rest) =
      freeAstNodesLoop
        { gc with
          allocatedNodes := gc.allocatedNodes.erase n
          variableNodes :=
            if n.getKind = .VARIABLE_NODE then
              gc.variableNodes.filter (fun p => p.1 != n.getStr)
            else gc.variableNodes }
        (d ++ [n]) rest from rfl]
    rw [ih]
    simp [Finset.erase_eq, sdiff_sdiff_left, Finset.insert_eq]

/-- C10: freeAstNodes empties the caller-supplied set of handles (its
post-call value is the empty collection), removes each of its nodes
from the live set, and destroys exactly those nodes. -/
theorem c10_free_subset_clears_argument :
    ∀ (gc : AstGarbageCollector) (nodes : List Node),
      (freeAstNodes gc nodes).2.1 = [] ∧
      (freeAstNodes gc nodes).1.allocatedNodes = gc.allocatedNodes \ nodes.toFinset ∧
      (freeAstNodes gc nodes).2.2 = nodes := by
  intro gc nodes
  refine ⟨rfl, ?_, ?_⟩
  · simpa [freeAstNodes] using freeAstNodesLoop_alloc nodes gc []
  · simpa [freeAstNodes] using freeAstNodesLoop_destroyed nodes gc []

/-- Unfolding of reachability: a node is reached when it is the root
or is reached from one of the children. -/
theorem reaches_iff (n x : Node) :
    Reaches n x ↔ x = n ∨ ∃ c ∈ n.getChildren, Reaches c x := by
  constructor
  · intro h
    cases h with
    | here => exact Or.inl rfl
    | via _ c _ hc hr => exact Or.inr ⟨c, hc, hr⟩
  · rintro (rfl | ⟨c, hc, hr⟩)
    · exact .here _
    · exact .via _ _ _ hc hr

/-- Induction principle for child sequences alone (the mutual
recursor specialised to a trivial node motive). -/
theorem nodeListInd {motive : NodeList → Prop} (hnil : motive .nil)
    (hcons : ∀ a t, motive t → motive (.cons a t)) : ∀ l, motive l :=
  fun l =>
    @NodeList.rec (fun _ => True) motive (fun _ _ _ _ _ _ => trivial) hnil
      (fun a t _ ht => hcons a t ht) l

/-- Size bound: a member of a child sequence is no larger than the
whole sequence. -/
theorem member_size_le :
    ∀ (l : NodeList) (c : Node), c ∈ l.toList → nodeSize c ≤ listSize l := by
  intro l
  induction l using nodeListInd with
  | hnil => intro c hc; simp [NodeList.toList] at hc
  | hcons a t ih =>
    intro c hc
    rcases (by simpa [NodeList.toList] using hc : c = a ∨ c ∈ t.toList) with rfl | hc2
    · simp [listSize]
    · have := ih c hc2
      simp [listSize]
      omega

/-- Membership in extractUniqueRec, by strong induction on the node
size: the result contains the prior set plus the reachable nodes. -/
theorem mem_extract_aux :
    ∀ (B : Nat) (r : Node), nodeSize r ≤ B →
      ∀ (S : Finset Node) (x : Node),
        (x ∈ extractUniqueRec S r ↔ x ∈ S ∨ Reaches r x) := by
  intro B
  induction B with
  | zero =>
    intro r hr
    exfalso
    cases r with
    | mk k c v s i => simp [nodeSize] at hr
  | succ B ih =>
    intro r hr S x
    cases r with
    | mk k c v s i =>
      have hchild : ∀ cc ∈ c.toList, nodeSize cc ≤ B := by
        intro cc hcc
        have h1 := member_size_le c cc hcc
        simp [nodeSize] at hr
        omega
      have hlist : ∀ (l : NodeList), (∀ cc ∈ l.toList, nodeSize cc ≤ B) →
          ∀ (T : Finset Node),
            (x ∈ extractChildren T l ↔ x ∈ T ∨ ∃ cc ∈ l.toList, Reaches cc x) := by
        intro l
        induction l using nodeListInd with
        | hnil => intro _ T; simp [extractChildren, NodeList.toList]
        | hcons a t iht =>
          intro hsz T
          rw [show extractChildren T (.cons a t) = extractChildren (extractUniqueRec T a) t from rfl]
          rw [iht (fun cc hcc => hsz cc (by simp [NodeList.toList, hcc])) (extractUniqueRec T a)]
          rw [ih a (hsz a (by simp [NodeList.toList])) T x]
          simp [NodeList.toList]
          tauto
      rw [show extractUniqueRec S (.mk k c v s i) =
        extractChildren (insert (Node.mk k c v s i) S) c from rfl]
      rw [hlist c hchild (insert (Node.mk k c v s i) S)]
      rw [reaches_iff]
      simp [Node.getChildren, Finset.mem_insert]
      tauto

/-- C6: extractUniqueAstNodes populates the output set with exactly
the prior contents plus the nodes reachable from the root by
repeatedly following getChildren; REFERENCE resolution through the
expression store is never followed, so a REFERENCE node contributes
only itself (second conjunct: on an empty set, extraction from a bare
REFERENCE node yields the singleton of that node, never the
referenced expression). -/
theorem c6_extract_unique_is_reachable_set :
    (∀ (root x : Node) (S : Finset Node),
       x ∈ extractUniqueAstNodes S (some root) ↔ x ∈ S ∨ Reaches root x) ∧
    (∀ (v i : Nat) (s : String),
       extractUniqueAstNodes ∅ (some (Node.mk .REFERENCE_NODE .nil v s i)) =
         {Node.mk .REFERENCE_NODE .nil v s i}) := by
  constructor
  · intro root x S
    have h := mem_extract_aux (nodeSize root) root le_rfl S x
    simpa [extractUniqueAstNodes] using h
  · intro v i s
    rfl

/-- Characterisation of a failed association-list lookup: the key is
absent from the key column. -/
theorem assocFind_eq_none_iff {α β : Type} [DecidableEq α] :
    ∀ (l : List (α × β)) (k : α), assocFind l k = none ↔ k ∉ l.map Prod.fst := by
  intro l k
  induction l with
  | nil => simp [assocFind]
  | cons p rest ih =>
    obtain ⟨a, b⟩ := p
    by_cases h : a = k
    · subst h; simp [assocFind]
    · have h2 : ¬ (k = a) := fun e => h e.symm
      simp [assocFind, h, h2, ih]

/-- Emplace keeps the memo keys pairwise distinct: an existing key is
left alone, a fresh key is appended. -/
theorem emplace_keys_nodup : ∀ (m : List (Node × Z3Expr)) (k : Node) (v : Z3Expr),
    (m.map Prod.fst).Nodup → ((emplace m k v).map Prod.fst).Nodup := by
  intro m k v h
  unfold emplace
  cases hf : assocFind m k with
  | some e => exact h
  | none =>
    have hk : k ∉ m.map Prod.fst := (assocFind_eq_none_iff m k).mp hf
    simp [List.nodup_append, h, hk]

/-- Unfolding of lowerOne through the Except bind: one dispatch
followed by the state update. -/
theorem lowerOne_eq (ctx : Ctx) (st : TState) (n : Node) :
    lowerOne ctx st n =
      match lowerExprOf ctx st n with
      | .error e => .error e
      | .ok e =>
        .ok { memo := emplace st.memo n e
              symbols :=
                if n.getKind = .LET_NODE then
                  match n.getChildren with
                  | c0 :: c1 :: _ => assocSet st.symbols c0.getStr c1
                  | _ => st.symbols
                else st.symbols
              log := st.log ++ (if adapterKind n.getKind then [n] else []) } := by
  rw [show lowerOne ctx st n = Except.bind (lowerExprOf ctx st n) _ from rfl]
  cases lowerExprOf ctx st n <;> rfl

/-- Unfolding of one lowerSeq step through the Except bind. -/
theorem lowerSeq_cons (ctx : Ctx) (st : TState) (n : Node) (rest : List Node) :
    lowerSeq ctx st (n :: rest) =
      match lowerOne ctx st n with
      | .error e => .error e
      | .ok s2 => lowerSeq ctx s2 rest := by
  rw [show lowerSeq ctx st (n :: rest) = Except.bind (lowerOne ctx st n) _ from rfl]
  cases lowerOne ctx st n <;> rfl

/-- Processing one node keeps the memo keys pairwise distinct. -/
theorem lowerOne_keys_nodup : ∀ (ctx : Ctx) (st : TState) (n : Node) (st2 : TState),
    lowerOne ctx st n = .ok st2 →
    (st.memo.map Prod.fst).Nodup → (st2.memo.map Prod.fst).Nodup := by
  intro ctx st n st2 h hn
  rw [lowerOne_eq] at h
  cases he : lowerExprOf ctx st n with
  | error e => rw [he] at h; cases h
  | ok e =>
    rw [he] at h
    cases h
    exact emplace_keys_nodup st.memo n e hn

/-- Lowering a whole visit sequence keeps the memo keys pairwise
distinct. -/
theorem lowerSeq_keys_nodup : ∀ (l : List Node) (ctx : Ctx) (st st2 : TState),
    lowerSeq ctx st l = .ok st2 →
    (st.memo.map Prod.fst).Nodup → (st2.memo.map Prod.fst).Nodup := by
  intro l
  induction l with
  | nil =>
    intro ctx st st2 h hn
    cases h
    exact hn
  | cons n rest ih =>
    intro ctx st st2 h hn
    rw [lowerSeq_cons] at h
    cases ho : lowerOne ctx st n with
    | error e => rw [ho] at h; cases h
    | ok s2 =>
      rw [ho] at h
      exact ih ctx s2 st2 h (lowerOne_keys_nodup ctx st n s2 ho hn)

/-- C2 amended: each node has at most one entry in the z3expressions
memo map of a completed convert (the handle recorded by its first
lowering; emplace never overwrites). The claim as stated is refuted
by the counterexample theorem: a node appearing several times in the
visit sequence has its solver-adapter operation re-invoked on each
appearance, because the loop has no membership check that skips
already-memoized nodes. -/
theorem c2_amended_memo_single_entry :
    ∀ (ctx : Ctx) (fuel : Nat) (root : Option Node) (st : TState),
      convertState ctx fuel root = .ok st → (st.memo.map Prod.fst).Nodup := by
  intro ctx fuel root st h
  cases root with
  | none => cases h
  | some r =>
    rw [show convertState ctx fuel (some r) =
      (match fillWorkStack ctx.store fuel r with
       | none => .error .OutOfFuel
       | some seq => lowerSeq ctx ⟨[], [], []⟩ seq) from rfl] at h
    cases hw : fillWorkStack ctx.store fuel r with
    | none => rw [hw] at h; cases h
    | some seq =>
      rw [hw] at h
      exact lowerSeq_keys_nodup seq ctx ⟨[], [], []⟩ st h (by simp)

/-- C2 amended witness: the memo of the shared-reference run has
pairwise distinct keys even though the shared node was lowered
twice. -/
theorem c2_amended_witness : (stC2W.memo.map Prod.fst).Nodup :=
  c2_amended_memo_single_entry ctxRef 60 (some rootC2) stC2W (by decide)

/-- Five loop iterations process the BV(1, 8) leaf frame completely:
its two DECIMAL children and the leaf itself are emitted. -/
theorem fws_leaf (store : Nat → Node) :
    ∀ (fuel : Nat) (rest : List (Node × Nat)) (acc : List Node),
      fillWorkStackAux store (fuel + 5) ((chainLeaf, 0) :: rest) acc =
      fillWorkStackAux store fuel rest (chainLeaf :: decEight :: decOne :: acc) := by
  intro fuel rest acc
  rfl

/-- First iteration on a BVADD chain frame: push the left child. -/
theorem fws_addTop (store : Nat → Node) (n : Nat) :
    ∀ (fuel : Nat) (rest : List (Node × Nat)) (acc : List Node),
      fillWorkStackAux store (fuel + 1) ((chain (n + 1), 0) :: rest) acc =
      fillWorkStackAux store fuel ((chainLeaf, 0) :: (chain (n + 1), 1) :: rest) acc := by
  intro fuel rest acc
  rfl

/-- Second visit of a BVADD chain frame: push the right child (the
rest of the chain). -/
theorem fws_add1 (store : Nat → Node) (n : Nat) :
    ∀ (fuel : Nat) (rest : List (Node × Nat)) (acc : List Node),
      fillWorkStackAux store (fuel + 1) ((chain (n + 1), 1) :: rest) acc =
      fillWorkStackAux store fuel ((chain n, 0) :: (chain (n + 1), 2) :: rest) acc := by
  intro fuel rest acc
  rfl

/-- Third visit of a BVADD chain frame: all children done, emit the
node. -/
theorem fws_add2 (store : Nat → Node) (n : Nat) :
    ∀ (fuel : Nat) (rest : List (Node × Nat)) (acc : List Node),
      fillWorkStackAux store (fuel + 1) ((chain (n + 1), 2) :: rest) acc =
      fillWorkStackAux store fuel rest (chain (n + 1) :: acc) := by
  intro fuel rest acc
  rfl

/-- Work-stack traversal of the whole chain: with linear fuel the
explicit-stack loop emits exactly the post-order sequence, whatever
lies below on the stack. -/
theorem fws_chain (store : Nat → Node) :
    ∀ (n fuel : Nat) (rest : List (Node × Nat)) (acc : List Node),
      fillWorkStackAux store (fuel + chainFuel n) ((chain n, 0) :: rest) acc =
      fillWorkStackAux store fuel rest ((postChain n).reverse ++ acc) := by
  intro n
  induction n with
  | zero =>
    intro fuel rest acc
    exact fws_leaf store fuel rest acc
  | succ n ih =>
    intro fuel rest acc
    have e1 : fuel + chainFuel (n + 1) = (fuel + chainFuel n + 2 + 5) + 1 := by
      simp [chainFuel]; omega
    rw [e1, fws_addTop store n]
    have e2 : fuel + chainFuel n + 2 + 5 = (fuel + chainFuel n + 2) + 5 := rfl
    rw [e2, fws_leaf store]
    have e3 : fuel + chainFuel n + 2 = (fuel + chainFuel n + 1) + 1 := rfl
    rw [e3, fws_add1 store n]
    have e4 : fuel + chainFuel n + 1 = (fuel + 1) + chainFuel n := by omega
    rw [e4, ih (fuel + 1)]
    rw [fws_add2 store n]
    congr 1
    simp [postChain, List.append_assoc]

/-- Phase 1 of the translator on the chain: fillWorkStack returns the
post-order sequence with fuel linear in the chain length. -/
theorem fws_chain_top (store : Nat → Node) (n : Nat) :
    fillWorkStack store (chainFuel n) (chain n) = some (postChain n) := by
  have h := fws_chain store n 0 [] []
  rw [Nat.zero_add] at h
  rw [show fillWorkStack store (chainFuel n) (chain n) =
    fillWorkStackAux store (chainFuel n) [(chain n, 0)] [] from rfl]
  rw [h]
  simp [fillWorkStackAux]

/-- Lowering the three leaf nodes from an empty memo builds
baseMemo. -/
theorem lower_leaf_fresh (ctx : Ctx) (log0 : List Node) :
    lowerSeq ctx ⟨[], [], log0⟩ [decOne, decEight, chainLeaf] =
      .ok ⟨baseMemo, [], log0 ++ [decOne, decEight, chainLeaf]⟩ := by
  rw [show lowerSeq ctx ⟨[], [], log0⟩ [decOne, decEight, chainLeaf] =
    .ok ⟨baseMemo, [], ((log0 ++ [decOne]) ++ [decEight]) ++ [chainLeaf]⟩ from rfl]
  simp

/-- Lowering the three leaf nodes again is re-dispatched but leaves
the memo untouched (all three keys are present, emplace is a
no-op). -/
theorem lower_leaf_memo (ctx : Ctx) (log0 : List Node) :
    lowerSeq ctx ⟨baseMemo, [], log0⟩ [decOne, decEight, chainLeaf] =
      .ok ⟨baseMemo, [], log0 ++ [decOne, decEight, chainLeaf]⟩ := by
  rw [show lowerSeq ctx ⟨baseMemo, [], log0⟩ [decOne, decEight, chainLeaf] =
    .ok ⟨baseMemo, [], ((log0 ++ [decOne]) ++ [decEight]) ++ [chainLeaf]⟩ from rfl]
  simp

/-- Splitting a lowering run over an appended visit sequence. -/
theorem lowerSeq_append (ctx : Ctx) :
    ∀ (l1 l2 : List Node) (st : TState),
      lowerSeq ctx st (l1 ++ l2) =
        match lowerSeq ctx st l1 with
        | .ok st2 => lowerSeq ctx st2 l2
        | .error e => .error e := by
  intro l1
  induction l1 with
  | nil => intro l2 st; rfl
  | cons n rest ih =>
    intro l2 st
    rw [List.cons_append, lowerSeq_cons, lowerSeq_cons]
    cases lowerOne ctx st n with
    | error e => rfl
    | ok s2 => exact ih l2 s2

/-- Composed form of the split when the first half succeeds. -/
theorem lowerSeq_append_ok (ctx : Ctx) {l1 l2 : List Node} {st st1 : TState}
    (h : lowerSeq ctx st l1 = .ok st1) :
    lowerSeq ctx st (l1 ++ l2) = lowerSeq ctx st1 l2 := by
  rw [lowerSeq_append ctx, h]

/-- Chains of different lengths are different nodes. -/
theorem chain_inj : ∀ {a b : Nat}, chain a = chain b → a = b := by
  intro a
  induction a with
  | zero =>
    intro b h
    cases b with
    | zero => rfl
    | succ b => exfalso; simp [chain, chainLeaf] at h
  | succ a ih =>
    intro b h
    cases b with
    | zero => exfalso; simp [chain, chainLeaf] at h
    | succ b =>
      simp only [chain, Node.mk.injEq, NodeList.cons.injEq, and_true, true_and] at h
      rw [ih h]

/-- Lookup through an append when the key is found on the left. -/
theorem assocFind_append_left {α β : Type} [DecidableEq α] :
    ∀ (l1 l2 : List (α × β)) (k : α) (v : β),
      assocFind l1 k = some v → assocFind (l1 ++ l2) k = some v := by
  intro l1
  induction l1 with
  | nil => intro l2 k v h; cases h
  | cons p rest ih =>
    intro l2 k v h
    obtain ⟨a, b⟩ := p
    by_cases ha : a = k
    · rw [show assocFind ((a, b) :: rest) k = if a = k then some b else assocFind rest k from rfl,
        if_pos ha] at h
      rw [List.cons_append,
        show assocFind ((a, b) :: (rest ++ l2)) k =
          if a = k then some b else assocFind (rest ++ l2) k from rfl,
        if_pos ha]
      exact h
    · rw [show assocFind ((a, b) :: rest) k = if a = k then some b else assocFind rest k from rfl,
        if_neg ha] at h
      rw [List.cons_append,
        show assocFind ((a, b) :: (rest ++ l2)) k =
          if a = k then some b else assocFind (rest ++ l2) k from rfl,
        if_neg ha]
      exact ih l2 k v h

/-- Lookup through an append when the key is absent on the left. -/
theorem assocFind_append_right {α β : Type} [DecidableEq α] :
    ∀ (l1 l2 : List (α × β)) (k : α),
      assocFind l1 k = none → assocFind (l1 ++ l2) k = assocFind l2 k := by
  intro l1
  induction l1 with
  | nil => intro l2 k h; rfl
  | cons p rest ih =>
    intro l2 k h
    obtain ⟨a, b⟩ := p
    by_cases ha : a = k
    · rw [show assocFind ((a, b) :: rest) k = if a = k then some b else assocFind rest k from rfl,
        if_pos ha] at h
      cases h
    · rw [show assocFind ((a, b) :: rest) k = if a = k then some b else assocFind rest k from rfl,
        if_neg ha] at h
      rw [List.cons_append,
        show assocFind ((a, b) :: (rest ++ l2)) k =
          if a = k then some b else assocFind (rest ++ l2) k from rfl,
        if_neg ha]
      exact ih l2 k h

/-- BVADD chain nodes are not among the three leaf entries. -/
theorem find_baseMemo_chainSucc : ∀ m : Nat, assocFind baseMemo (chain (m + 1)) = none := by
  intro m
  simp [baseMemo, assocFind, decOne, decEight, chainLeaf, chain]

/-- Entries for levels up to n do not contain a longer chain. -/
theorem find_chainEntries_none :
    ∀ (n m : Nat), n < m → assocFind (chainEntries n) (chain m) = none := by
  intro n
  induction n with
  | zero => intro m h; rfl
  | succ n ih =>
    intro m h
    rw [show chainEntries (n + 1) = chainEntries n ++ [(chain (n + 1), chainExpr (n + 1))] from rfl]
    rw [assocFind_append_right _ _ _ (ih m (by omega))]
    rw [show assocFind [(chain (n + 1), chainExpr (n + 1))] (chain m) =
      if chain (n + 1) = chain m then some (chainExpr (n + 1)) else none from rfl]
    rw [if_neg]
    intro hc
    exact absurd (chain_inj hc) (by omega)

/-- Entry of the top chain level. -/
theorem find_chainEntries_self :
    ∀ n : Nat, assocFind (chainEntries (n + 1)) (chain (n + 1)) = some (chainExpr (n + 1)) := by
  intro n
  rw [show chainEntries (n + 1) = chainEntries n ++ [(chain (n + 1), chainExpr (n + 1))] from rfl]
  rw [assocFind_append_right _ _ _ (find_chainEntries_none n (n + 1) (by omega))]
  simp [assocFind]

/-- Memo lookup of chain n in the accumulated memo. -/
theorem find_full_chain :
    ∀ n : Nat, assocFind (baseMemo ++ chainEntries n) (chain n) = some (chainExpr n) := by
  intro n
  cases n with
  | zero => rfl
  | succ n =>
    rw [assocFind_append_right _ _ _ (find_baseMemo_chainSucc n)]
    exact find_chainEntries_self n

/-- Memo lookup of the BV(1, 8) leaf in the accumulated memo. -/
theorem find_full_leaf :
    ∀ n : Nat, assocFind (baseMemo ++ chainEntries n) chainLeaf = some (.bvNumeral 1 8) := by
  intro n
  exact assocFind_append_left _ _ _ _ (by rfl)

/-- Longer chains are absent from the accumulated memo. -/
theorem find_full_absent :
    ∀ n m : Nat, n < m → assocFind (baseMemo ++ chainEntries n) (chain m) = none := by
  intro n m h
  obtain ⟨m2, rfl⟩ : ∃ m2, m = m2 + 1 := ⟨m - 1, by omega⟩
  rw [assocFind_append_right _ _ _ (find_baseMemo_chainSucc m2)]
  exact find_chainEntries_none n (m2 + 1) h

/-- Dispatch of a BVADD chain node: both operands are found in the
memo and the adapter builds the next chain expression. -/
theorem lower_chain_expr (ctx : Ctx) (m : Nat) (log0 : List Node) :
    lowerExprOf ctx ⟨baseMemo ++ chainEntries m, [], log0⟩ (chain (m + 1)) =
      .ok (chainExpr (m + 1)) := by
  simp [lowerExprOf, memoAt, chain, Node.getKind, Node.getChildren, NodeList.toList,
        find_full_leaf m, find_full_chain m, chainExpr, Except.bind]
  rfl

/-- Lowering one further BVADD level appends exactly one memo
entry. -/
theorem lower_chain_step (ctx : Ctx) (m : Nat) (log0 : List Node) :
    lowerSeq ctx ⟨baseMemo ++ chainEntries m, [], log0⟩ [chain (m + 1)] =
      .ok ⟨baseMemo ++ chainEntries (m + 1), [], log0 ++ [chain (m + 1)]⟩ := by
  rw [lowerSeq_cons, lowerOne_eq, lower_chain_expr ctx m log0]
  have hn : assocFind (baseMemo ++ chainEntries m) (chain (m + 1)) = none :=
    find_full_absent m (m + 1) (Nat.lt_succ_self m)
  simp [chain] at hn
  simp [lowerSeq, emplace, hn, chain, Node.getKind, adapterKind, chainEntries,
        List.append_assoc]

/-- Lowering the post-order sequence of chain n from the baseMemo
state succeeds and accumulates the chain entries. -/
theorem lower_postChain_memo (ctx : Ctx) :
    ∀ (n : Nat) (log0 : List Node),
      lowerSeq ctx ⟨baseMemo, [], log0⟩ (postChain n) =
        .ok ⟨baseMemo ++ chainEntries n, [], log0 ++ postChain n⟩ := by
  intro n
  induction n with
  | zero =>
    intro log0
    have h := lower_leaf_memo ctx log0
    rw [show postChain 0 = [decOne, decEight, chainLeaf] from rfl]
    rw [h]
    simp [chainEntries]
  | succ n ih =>
    intro log0
    rw [show postChain (n + 1) =
      [decOne, decEight, chainLeaf] ++ (postChain n ++ [chain (n + 1)]) from by
        simp [postChain]]
    rw [lowerSeq_append_ok ctx (lower_leaf_memo ctx log0)]
    rw [lowerSeq_append_ok ctx (ih (log0 ++ [decOne, decEight, chainLeaf]))]
    rw [lower_chain_step ctx n (log0 ++ [decOne, decEight, chainLeaf] ++ postChain n)]
    simp [postChain, List.append_assoc]

/-- Phase 2 on the chain from the empty initial state. -/
theorem lower_postChain_fresh (ctx : Ctx) :
    ∀ n : Nat,
      lowerSeq ctx ⟨[], [], []⟩ (postChain n) =
        .ok ⟨baseMemo ++ chainEntries n, [], postChain n⟩ := by
  intro n
  cases n with
  | zero =>
    have h := lower_leaf_fresh ctx []
    rw [show postChain 0 = [decOne, decEight, chainLeaf] from rfl]
    rw [h]
    simp [chainEntries]
  | succ n =>
    rw [show postChain (n + 1) =
      [decOne, decEight, chainLeaf] ++ (postChain n ++ [chain (n + 1)]) from by
        simp [postChain]]
    rw [lowerSeq_append_ok ctx (lower_leaf_fresh ctx [])]
    rw [lowerSeq_append_ok ctx (lower_postChain_memo ctx n ([] ++ [decOne, decEight, chainLeaf]))]
    rw [lower_chain_step ctx n ([] ++ [decOne, decEight, chainLeaf] ++ postChain n)]
    simp [postChain, List.append_assoc]

/-- Conversion of the whole chain succeeds for every length, with
fuel linear in the length. -/
theorem convert_chain_succeeds : ∀ n : Nat,
    convert ctxEmpty (chainFuel n) (some (chain n)) = .ok (.intNumeral 1) := by
  intro n
  rw [show convert ctxEmpty (chainFuel n) (some (chain n)) =
    (match convertState ctxEmpty (chainFuel n) (some (chain n)) with
     | .error e => .error e
     | .ok st =>
       match st.memo with
       | [] => .error .AtFail
       | (_, e) :: _ => .ok e) from rfl]
  rw [show convertState ctxEmpty (chainFuel n) (some (chain n)) =
    (match fillWorkStack ctxEmpty.store (chainFuel n) (chain n) with
     | none => .error .OutOfFuel
     | some seq => lowerSeq ctxEmpty ⟨[], [], []⟩ seq) from rfl]
  rw [fws_chain_top ctxEmpty.store n]
  rw [show (match some (postChain n) with
     | none => (Except.error TErr.OutOfFuel : Except TErr TState)
     | some seq => lowerSeq ctxEmpty ⟨[], [], []⟩ seq) =
    lowerSeq ctxEmpty ⟨[], [], []⟩ (postChain n) from rfl]
  rw [lower_postChain_fresh ctxEmpty n]
  rfl

/-- C3: TritonToZ3Ast::convert is iterative: the work-stack loop and
the lowering loop are flat iterations whose state lives in explicit
data (the frame stack, the visit vector and the memo), not in host
stack frames, so conversion succeeds for right-linear BVADD chains of
every length n with loop fuel linear in n; in particular the chain of
100 000 BVADD nodes converts. In the embedding, recursion depth shows
up as the fuel of a tail-recursive loop, never as recursion on the
tree structure. -/
theorem c3_deep_chain_converts :
    (∀ n : Nat, convert ctxEmpty (chainFuel n) (some (chain n)) = .ok (.intNumeral 1)) ∧
    convert ctxEmpty (chainFuel 100000) (some (chain 100000)) = .ok (.intNumeral 1) :=
  ⟨convert_chain_succeeds, convert_chain_succeeds 100000⟩

end TritonSpec
